import Mathlib

/-!
Verification of the UMass Lab Chatbot Builder core (src/src/App.tsx):
the flexible Q&A import normalizer, the canonical data model, payload
assembly and validation, and the pair-editing handlers.

The JavaScript source is shallowly embedded: JSON values are the
inductive `JValue` (numbers as exact rationals, built with `mkRat` so
that the kernel can evaluate them), strings are Lean strings over their
character lists, and the JS string helpers (`trim`, truthiness, `||`,
property lookup, `String(...)` coercion) are modelled explicitly below.
Each definition carries a note naming the source function or lines it
embeds.
-/

/-- The whitespace class of JavaScript: what `String.prototype.trim` strips
and what the regex class \s matches (WhiteSpace plus LineTerminator). -/
def isJsSpace (c : Char) : Bool :=
  (9 ≤ c.toNat && c.toNat ≤ 13) || c = ' ' || c.toNat = 0xa0 || c.toNat = 0x1680 ||
  (0x2000 ≤ c.toNat && c.toNat ≤ 0x200a) || c.toNat = 0x2028 || c.toNat = 0x2029 ||
  c.toNat = 0x202f || c.toNat = 0x205f || c.toNat = 0x3000 || c.toNat = 0xfeff

/-- Characters matched by an unadorned `.` in a JavaScript regex:
everything except the four line terminators. -/
def isRegexDot (c : Char) : Bool :=
  !(c = '\n' || c = '\r' || c.toNat = 0x2028 || c.toNat = 0x2029)

/-- JS `trim()` on a character list: drop JS whitespace at both ends. -/
def trimChars (l : List Char) : List Char :=
  ((l.dropWhile isJsSpace).reverse.dropWhile isJsSpace).reverse

/-- JS `String.prototype.trim`. -/
def jsTrim (s : String) : String := String.mk (trimChars s.data)

/-- JS `s1 || s2` on strings: the empty string is falsy. -/
def strOr (s d : String) : String := if s = "" then d else s

/-- Replace every maximal run of characters satisfying `p` by the single
character `r`; `inRun` records whether the previous character was in a run.
This is `replace(/P+/g, "R")` for a character class P. -/
def collapseRunsAux (p : Char → Bool) (r : Char) : Bool → List Char → List Char
  | _, [] => []
  | inRun, c :: cs =>
    if p c then
      (if inRun then [] else [r]) ++ collapseRunsAux p r true cs
    else
      c :: collapseRunsAux p r false cs

/-- `replace(/P+/g, "R")` for a character class P and one-character R. -/
def collapseRuns (p : Char → Bool) (r : Char) (l : List Char) : List Char :=
  collapseRunsAux p r false l

/-- JS `toLowerCase` restricted to ASCII letters. (The source lowercases
with full Unicode rules, but every character this model maps differently
is removed by the following character filter of `slugify`.) -/
def jsLowerChar (c : Char) : Char :=
  if 'A' ≤ c ∧ c ≤ 'Z' then Char.ofNat (c.toNat + 32) else c

/-- A character kept by the filter `replace(/[^a-z0-9\s-]/g, "")`. -/
def isSlugKeep (c : Char) : Bool :=
  ('a' ≤ c && c ≤ 'z') || ('0' ≤ c && c ≤ '9') || c = '-' || isJsSpace c

/-- Embeds `slugify` (App.tsx lines 60-67): lowercase, strip characters
outside [a-z0-9\s-], trim, turn whitespace runs into single hyphens,
collapse hyphen runs. -/
def slugify (s : String) : String :=
  String.mk
    (collapseRuns (fun c => c = '-') '-'
      (collapseRuns isJsSpace '-'
        (trimChars ((s.data.map jsLowerChar).filter isSlugKeep))))

/-- A JSON value as produced by `JSON.parse`: numbers are modelled as
exact rationals (the engine uses doubles; every literal in the inputs
considered here is exactly representable either way), objects as ordered
key-value lists. -/
inductive JValue where
  | null
  | bool (b : Bool)
  | num (q : ℚ)
  | str (s : String)
  | arr (elems : List JValue)
  | obj (fields : List (String × JValue))

/-- Property lookup on an object field list. `JSON.parse` lets a later
duplicate key overwrite an earlier one, so the rightmost binding wins. -/
def jsLookup (k : String) : List (String × JValue) → Option JValue
  | [] => none
  | (k', v) :: rest =>
    match jsLookup k rest with
    | some w => some w
    | none => if k' = k then some v else none

/-- JS property access `v[k]`: objects use their fields, every other
value (including arrays, whose JSON keys are numeric) yields undefined
for the identifier keys used by the source. -/
def JValue.getField (v : JValue) (k : String) : Option JValue :=
  match v with
  | .obj fields => jsLookup k fields
  | _ => none

/-- JS truthiness of a JSON value: null, false, 0 and "" are falsy. -/
def jsTruthy : JValue → Bool
  | .null => false
  | .bool b => b
  | .num q => !(q = 0)
  | .str s => !(s = "")
  | .arr _ => true
  | .obj _ => true

/-- JS `x || d` where `x` is a possibly-undefined property and `d` a value
(`none` models undefined, which is falsy). -/
def jsOr (x : Option JValue) (d : JValue) : JValue :=
  match x with
  | some v => if jsTruthy v then v else d
  | none => d

/-- Decimal digit character. -/
def digitChar (d : Nat) : Char := Char.ofNat (48 + d % 10)

/-- Decimal digits of `n` (most significant first); `fuel` bounds the
recursion and any `fuel ≥ n + 1` is enough. -/
def natToChars : Nat → Nat → List Char
  | 0, _ => []
  | fuel + 1, n => if n < 10 then [digitChar n] else natToChars fuel (n / 10) ++ [digitChar (n % 10)]

/-- Left-pad with zeros to `len` characters. -/
def padZeros (len : Nat) (ds : List Char) : List Char :=
  List.replicate (len - ds.length) '0' ++ ds

/-- JS `String(n)` for a number, for numbers whose denominator divides a
power of ten (every value `jsonParse` builds is of this form): the exact
decimal expansion with no trailing zeros, as the engine prints short
literals. Other rationals fall back to a fraction rendering that no run
in this development reaches. -/
def jsNumToString (q : ℚ) : String :=
  let sign := if q.num < 0 then "-" else ""
  let n := q.num.natAbs
  match (List.range 401).find? (fun k => 10 ^ k % q.den = 0) with
  | some k =>
    let m := n * (10 ^ k / q.den)
    let intPart := natToChars (m / 10 ^ k + 1) (m / 10 ^ k)
    if k = 0 then sign ++ String.mk intPart
    else sign ++ String.mk (intPart ++ '.' :: padZeros k (natToChars (m % 10 ^ k + 1) (m % 10 ^ k)))
  | none => sign ++ String.mk (natToChars (n + 1) n) ++ "/" ++ String.mk (natToChars (q.den + 1) q.den)

mutual
/-- JS `String(v)`: the natural textual form of a value; arrays join
their elements with commas (null elements becoming empty), plain
objects print as "[object Object]". -/
def jsToString : JValue → String
  | .null => "null"
  | .bool b => cond b "true" "false"
  | .num q => jsNumToString q
  | .str s => s
  | .arr xs => jsJoinArr xs
  | .obj _ => "[object Object]"
termination_by structural v => v

/-- `Array.prototype.toString`: elements joined by commas, null
elements rendering empty. -/
def jsJoinArr : List JValue → String
  | [] => ""
  | [.null] => ""
  | [v] => jsToString v
  | .null :: rest => "," ++ jsJoinArr rest
  | v :: rest => jsToString v ++ "," ++ jsJoinArr rest
termination_by structural l => l
end

/-- Embeds `coerceStr` (App.tsx lines 87-89):
`(typeof x === "string" ? x : String(x ?? "")).trim()`. -/
def coerceStr (x : JValue) : String :=
  match x with
  | .str s => jsTrim s
  | .null => ""
  | v => jsTrim (jsToString v)

/-- JSON grammar whitespace (what `JSON.parse` skips between tokens). -/
def isJsonWs (c : Char) : Bool := c = ' ' || c = '\t' || c = '\n' || c = '\r'

/-- Skip JSON whitespace. -/
def skipWs (cs : List Char) : List Char := cs.dropWhile isJsonWs

/-- Hex digit value. -/
def hexVal (c : Char) : Option Nat :=
  if '0' ≤ c ∧ c ≤ '9' then some (c.toNat - 48)
  else if 'a' ≤ c ∧ c ≤ 'f' then some (c.toNat - 87)
  else if 'A' ≤ c ∧ c ≤ 'F' then some (c.toNat - 55)
  else none

/-- Non-unicode escape characters of JSON strings. -/
def escChar (c : Char) : Option Char :=
  if c = '"' then some '"'
  else if c = '\\' then some '\\'
  else if c = '/' then some '/'
  else if c = 'b' then some (Char.ofNat 8)
  else if c = 'f' then some (Char.ofNat 12)
  else if c = 'n' then some '\n'
  else if c = 'r' then some '\r'
  else if c = 't' then some '\t'
  else none

/-- Body of a JSON string after the opening quote: the decoded characters
and the rest of the input after the closing quote. -/
def parseStrChars : List Char → Option (List Char × List Char)
  | [] => none
  | c :: rest =>
    if c = '"' then some ([], rest)
    else if c = '\\' then
      match rest with
      | [] => none
      | e :: rest2 =>
        if e = 'u' then
          match rest2 with
          | h1 :: h2 :: h3 :: h4 :: rest3 =>
            match hexVal h1, hexVal h2, hexVal h3, hexVal h4 with
            | some a, some b, some c3, some d =>
              match parseStrChars rest3 with
              | some (tail, rem) => some (Char.ofNat (((a * 16 + b) * 16 + c3) * 16 + d) :: tail, rem)
              | none => none
            | _, _, _, _ => none
          | _ => none
        else
          match escChar e with
          | some ec =>
            match parseStrChars rest2 with
            | some (tail, rem) => some (ec :: tail, rem)
            | none => none
          | none => none
    else if c.toNat < 32 then none
    else
      match parseStrChars rest with
      | some (tail, rem) => some (c :: tail, rem)
      | none => none

/-- Digits prefix of the input. -/
def takeDigits (cs : List Char) : List Char := cs.takeWhile Char.isDigit

/-- Numeric value of a digit list (most significant first). -/
def digitsVal (ds : List Char) : Nat := ds.foldl (fun n c => n * 10 + (c.toNat - 48)) 0

/-- A JSON number starting at the input: grammar
-?(0|[1-9][0-9]*)(.[0-9]+)?([eE][+-]?[0-9]+)?, with its exact rational
value, built with `mkRat` so concrete runs reduce in the kernel. -/
def parseNumber (cs : List Char) : Option (ℚ × List Char) :=
  let (neg, cs1) : Bool × List Char :=
    match cs with
    | '-' :: r => (true, r)
    | _ => (false, cs)
  let intDs := takeDigits cs1
  if intDs = [] then none
  else if intDs.head? = some '0' ∧ intDs.length ≠ 1 then none
  else
    let cs2 := cs1.drop intDs.length
    let (fracDs, cs3) : List Char × List Char :=
      match cs2 with
      | '.' :: r => (takeDigits r, (takeDigits r).length.succ.pred |> fun n => r.drop n)
      | _ => ([], cs2)
    if cs2.head? = some '.' ∧ fracDs = [] then none
    else
      let (expOk, expNeg, expDs, cs4) : Bool × Bool × List Char × List Char :=
        match cs3 with
        | 'e' :: '+' :: r => (!(takeDigits r = []), false, takeDigits r, r.drop (takeDigits r).length)
        | 'e' :: '-' :: r => (!(takeDigits r = []), true, takeDigits r, r.drop (takeDigits r).length)
        | 'e' :: r => (!(takeDigits r = []), false, takeDigits r, r.drop (takeDigits r).length)
        | 'E' :: '+' :: r => (!(takeDigits r = []), false, takeDigits r, r.drop (takeDigits r).length)
        | 'E' :: '-' :: r => (!(takeDigits r = []), true, takeDigits r, r.drop (takeDigits r).length)
        | 'E' :: r => (!(takeDigits r = []), false, takeDigits r, r.drop (takeDigits r).length)
        | _ => (true, false, [], cs3)
      if !expOk then none
      else
        let m : Nat := digitsVal intDs * 10 ^ fracDs.length + digitsVal fracDs
        let sm : Int := if neg then -(m : Int) else (m : Int)
        let e10 : Int := (if expNeg then -(digitsVal expDs : Int) else (digitsVal expDs : Int)) - fracDs.length
        let q : ℚ :=
          if 0 ≤ e10 then mkRat (sm * (10 : Int) ^ e10.toNat) 1
          else mkRat sm (10 ^ (-e10).toNat)
        some (q, cs4)

/-- One step of the JSON parser; `mode` selects what is being parsed:
0 a value, 1 an array body after "[", 2 an array body after an element,
3 an object body after the opening brace, 4 an object body after a
member, 5 one member then the rest of the object. Modes 1-2 wrap their
items as `.arr`, modes 3-5 as `.obj`. Structural recursion on `fuel`
keeps every equation definitionally reducible; `jsonParse` supplies
enough fuel for any input. -/
def parseF : Nat → Nat → List Char → Option (JValue × List Char)
  | 0, _, _ => none
  | fuel + 1, 0, cs =>
    match skipWs cs with
    | [] => none
    | c :: rest =>
      if c = 'n' then if rest.take 3 = ['u', 'l', 'l'] then some (.null, rest.drop 3) else none
      else if c = 't' then if rest.take 3 = ['r', 'u', 'e'] then some (.bool true, rest.drop 3) else none
      else if c = 'f' then if rest.take 4 = ['a', 'l', 's', 'e'] then some (.bool false, rest.drop 4) else none
      else if c = '"' then
        match parseStrChars rest with
        | some (body, rem) => some (.str (String.mk body), rem)
        | none => none
      else if c = '[' then parseF fuel 1 rest
      else if c = '{' then parseF fuel 3 rest
      else
        match parseNumber (c :: rest) with
        | some (q, rem) => some (.num q, rem)
        | none => none
  | fuel + 1, 1, cs =>
    match skipWs cs with
    | ']' :: rest => some (.arr [], rest)
    | _ =>
      match parseF fuel 0 cs with
      | some (v, r) =>
        match parseF fuel 2 r with
        | some (.arr xs, r2) => some (.arr (v :: xs), r2)
        | _ => none
      | none => none
  | fuel + 1, 2, cs =>
    match skipWs cs with
    | ']' :: rest => some (.arr [], rest)
    | ',' :: rest =>
      match parseF fuel 0 rest with
      | some (v, r) =>
        match parseF fuel 2 r with
        | some (.arr xs, r2) => some (.arr (v :: xs), r2)
        | _ => none
      | none => none
    | _ => none
  | fuel + 1, 3, cs =>
    match skipWs cs with
    | '}' :: rest => some (.obj [], rest)
    | _ => parseF fuel 5 cs
  | fuel + 1, 4, cs =>
    match skipWs cs with
    | '}' :: rest => some (.obj [], rest)
    | ',' :: rest => parseF fuel 5 rest
    | _ => none
  | fuel + 1, 5, cs =>
    match skipWs cs with
    | '"' :: r =>
      match parseStrChars r with
      | some (key, r1) =>
        match skipWs r1 with
        | ':' :: r2 =>
          match parseF fuel 0 r2 with
          | some (v, r3) =>
            match parseF fuel 4 r3 with
            | some (.obj fs, r4) => some (.obj ((String.mk key, v) :: fs), r4)
            | _ => none
          | none => none
        | _ => none
      | none => none
    | _ => none
  | _ + 1, _ + 6, _ => none

/-- `JSON.parse` on a character list: one value, possibly surrounded by
whitespace, and nothing else. `none` models a thrown SyntaxError. -/
def jsonParseChars (cs : List Char) : Option JValue :=
  match parseF (2 * cs.length + 8) 0 cs with
  | some (v, rest) => if skipWs rest = [] then some v else none
  | none => none

/-- `JSON.parse` on a string. -/
def jsonParse (t : String) : Option JValue := jsonParseChars t.data

/-- The question-bearing keys of the object form, in priority order
(App.tsx line 94). -/
def qKeys : List String := ["q", "question", "prompt", "ask", "query", "Q"]

/-- The answer-bearing keys of the object form, in priority order
(App.tsx line 95). -/
def aKeys : List String := ["a", "answer", "response", "text", "A"]

/-- A canonical extracted pair: trimmed question, trimmed answer, and an
optional tag list (`none` models the undefined tags field). -/
structure OutPair where
  q : String
  a : String
  tags : Option (List String)
  deriving DecidableEq, Repr

/-- Embeds `extractQAFromObject` (App.tsx lines 91-108). A JS array
reaching the source function would pass its object test but can carry no
string key from JSON, so every non-object value maps to `null` exactly
as the source returns. -/
def extractQAFromObject (v : JValue) : Option OutPair :=
  match v with
  | .obj fields =>
    match qKeys.find? (fun k => (jsLookup k fields).isSome),
          aKeys.find? (fun k => (jsLookup k fields).isSome) with
    | some qk, some ak =>
      let q := coerceStr ((jsLookup qk fields).getD .null)
      let a := coerceStr ((jsLookup ak fields).getD .null)
      if q = "" ∨ a = "" then none
      else
        let tags : Option (List String) :=
          match jsLookup "tags" fields with
          | some (.arr ts) =>
            let tl := (ts.map coerceStr).filter (fun s => !(s = ""))
            if tl = [] then none else some tl
          | _ => none
        some { q := q, a := a, tags := tags }
    | _, _ => none
  | _ => none

/-- Splitting a comma-joined tag string: `split(",").map(trim).filter(Boolean)`. -/
def splitCommaTags (s : String) : List String :=
  ((s.split (fun c => c = ',')).map jsTrim).filter (fun t => !(t = ""))

/-- Embeds `extractQAFromArray` (App.tsx lines 110-124); the argument is
the element list of a JS array (the dispatchers call it only after an
`Array.isArray` test). -/
def extractQAFromArray (arr : List JValue) : Option OutPair :=
  if arr.length < 2 then none
  else
    let q := coerceStr (arr.getD 0 .null)
    let a := coerceStr (arr.getD 1 .null)
    if q = "" ∨ a = "" then none
    else
      let tags : Option (List String) :=
        if 3 ≤ arr.length then
          match arr.getD 2 .null with
          | .arr ts =>
            let tl := (ts.map coerceStr).filter (fun s => !(s = ""))
            if tl = [] then none else some tl
          | other =>
            let tl := splitCommaTags (coerceStr other)
            if tl = [] then none else some tl
        else none
      some { q := q, a := a, tags := tags }

/-- The per-item dispatch used by every strategy:
`Array.isArray(item) ? extractQAFromArray(item) : extractQAFromObject(item)`. -/
def extractAny (v : JValue) : Option OutPair :=
  match v with
  | .arr xs => extractQAFromArray xs
  | _ => extractQAFromObject v

/-- `items.map(dispatch).filter(Boolean)`, as each strategy runs it. -/
def extractList (items : List JValue) : List OutPair :=
  items.filterMap extractAny

/-- The metadata patch recovered by strategy 1; the source builds a full
record with every field present, so no field is optional here. -/
structure MetaPatch where
  lab : String
  botName : String
  ownerEmail : String
  description : String
  baseModel : String
  embedModel : String
  temperature : ℚ
  topP : ℚ
  deriving DecidableEq, Repr

-- Equality on normalizer outcomes (Except values) is decidable.
deriving instance DecidableEq for Except

/-- The result of the import normalizer. -/
structure ParseResult where
  metaPatch : Option MetaPatch
  pairs : List OutPair
  deriving DecidableEq, Repr

/-- `bot ?? {}` (App.tsx line 144): only null (or a missing field) is
replaced by the empty object. -/
def nullishObj (v : JValue) : JValue :=
  match v with
  | .null => .obj []
  | v => v

/-- The metadata patch of strategy 1 (App.tsx lines 145-154), field by
field: string fields go through `coerceStr(bot.f || default)`, numeric
fields keep the source number exactly when it is one. -/
def metaPatchOfBot (bot : JValue) : MetaPatch :=
  { lab := coerceStr (jsOr (bot.getField "lab") (.str ""))
    botName := coerceStr (jsOr (bot.getField "name") (.str ""))
    ownerEmail := coerceStr (jsOr (bot.getField "owner_email") (.str ""))
    description := coerceStr (jsOr (bot.getField "description") (.str ""))
    baseModel := coerceStr (jsOr (bot.getField "model") (.str "qwen2.5:7b-instruct"))
    embedModel := coerceStr (jsOr (bot.getField "embed_model") (.str "nomic-embed-text"))
    temperature := match bot.getField "temperature" with
      | some (.num x) => x
      | _ => mkRat 2 10
    topP := match bot.getField "top_p" with
      | some (.num x) => x
      | _ => mkRat 95 100 }

/-- The wrapper-key scan of strategy 3 (App.tsx line 175): the first of
the candidate keys whose value is an array, with that array. -/
def findWrapKey (fields : List (String × JValue)) : Option (String × List JValue) :=
  (["pairs", "data", "faqs", "items", "records"]).findSome? fun k =>
    match jsLookup k fields with
    | some (.arr xs) => some (k, xs)
    | _ => none

/-- What the try block of `parseAnyQAPairs` (App.tsx lines 138-187) does:
`returned r` models a `return r`, `threw msg` an exception raised inside
the block (the SyntaxError of `JSON.parse` or an explicit `throw`), and
`fellThrough` the block finishing with neither. The surrounding catch
discards every `threw` message and continues after the block, exactly
like `fellThrough`. -/
inductive TryOutcome where
  | returned (r : ParseResult)
  | threw (msg : String)
  | fellThrough
  deriving DecidableEq, Repr

/-- Whether the try block returned a result. -/
def TryOutcome.isReturned : TryOutcome → Bool
  | .returned _ => true
  | _ => false

/-- The whole-text phase of the normalizer: strategy 1 (full export
shape), strategy 2 (raw array), strategy 3 (wrapped object), mirroring
the source branch for branch. The SyntaxError message of a failed
`JSON.parse` is engine-dependent and modelled by a fixed token. -/
def tryParsedShapes (data : JValue) : TryOutcome :=
  match data with
  | .obj fields =>
    match jsLookup "bot" fields, jsLookup "pairs" fields with
    | some botv, some (.arr ps) =>
      let metaPatch := metaPatchOfBot (nullishObj botv)
      let pairs := extractList ps
      if pairs = [] then .threw "No valid Q/A items found in ExportPayload.pairs"
      else .returned { metaPatch := some metaPatch, pairs := pairs }
    | _, _ =>
      match findWrapKey fields with
      | some (k, xs) =>
        let pairs := extractList xs
        if pairs = [] then .threw ("No valid Q/A under \x27" ++ k ++ "\x27")
        else .returned { metaPatch := none, pairs := pairs }
      | none => .fellThrough
  | .arr xs =>
    let pairs := extractList xs
    if pairs = [] then .threw "No valid Q/A rows in array"
    else .returned { metaPatch := none, pairs := pairs }
  | _ => .fellThrough

/-- The try block as a whole: a failed parse throws, a parsed value goes
through the shape strategies. -/
def tryFullJson (t : String) : TryOutcome :=
  match jsonParse t with
  | none => .threw "SyntaxError"
  | some data => tryParsedShapes data

/-- Split on /\r?\n/: every newline separates lines, a carriage return
immediately before a newline is dropped with it. -/
def splitJsLines (cs : List Char) : List (List Char) :=
  match cs with
  | [] => [[]]
  | '\r' :: '\n' :: rest => [] :: splitJsLines rest
  | '\n' :: rest => [] :: splitJsLines rest
  | c :: rest =>
    match splitJsLines rest with
    | line :: more => (c :: line) :: more
    | [] => [[c]]

/-- The JSONL phase of the normalizer (App.tsx lines 189-208): non-empty
trimmed lines, each parsed and extracted on its own, bad lines ignored;
it only ever fires when more than one line is present. -/
def jsonlPhase (t : String) : Except String ParseResult :=
  let lines := ((splitJsLines t.data).map trimChars).filter (fun l => !(l = []))
  if 1 < lines.length then
    let fromJsonl := lines.filterMap fun l =>
      match jsonParseChars l with
      | some v => extractAny v
      | none => none
    if fromJsonl = [] then .error "Unsupported JSON format: could not find Q/A pairs"
    else .ok { metaPatch := none, pairs := fromJsonl }
  else .error "Unsupported JSON format: could not find Q/A pairs"

/-- Embeds `parseAnyQAPairs` (App.tsx lines 134-209): the try block of
whole-text strategies, whose exceptions the catch silently turns into
the JSONL attempt, which ends in the only error the function can raise. -/
def parseAnyQAPairs (t : String) : Except String ParseResult :=
  match tryFullJson t with
  | .returned r => .ok r
  | _ => jsonlPhase t

/-- Head of a list is a regex-dot character. -/
def headDot (l : List Char) : Bool :=
  match l with
  | d :: _ => isRegexDot d
  | [] => false

/-- Scanner for the part of /.+@.+\..+/ after the "@": walks the
characters following the "@"; `seen` records whether at least one
dot-class character has been passed since the "@". Succeeds at a literal
dot that has a non-empty dot-class run before it (since the "@") and a
dot-class character after it. -/
def matchDotRun : Bool → List Char → Bool
  | _, [] => false
  | seen, c :: rest =>
    if seen && c = '.' && headDot rest then true
    else if isRegexDot c then matchDotRun true rest
    else false

/-- Whether the previous character exists and lies in the regex dot class. -/
def prevDot : Option Char → Bool
  | some p => isRegexDot p
  | none => false

/-- Unanchored search for /.+@.+\..+/: at every "@" whose immediate
predecessor is a dot-class character, try to match ".+\..+" on the rest;
`prev` carries the previous character of the scan. -/
def searchAt : Option Char → List Char → Bool
  | _, [] => false
  | prev, c :: rest =>
    if c = '@' then (prevDot prev && matchDotRun false rest) || searchAt (some c) rest
    else searchAt (some c) rest

/-- `/.+@.+\..+/.test(s)`: the email check of `validateMeta`
(App.tsx line 78). -/
def emailTest (s : String) : Bool := searchAt none s.data

/-- The metadata record (type `BotMeta`, App.tsx lines 26-35).
`description` is optional in the source type but every construction site
supplies a string (the state initializer and the import patch), so it is
modelled as a string; an undefined description and an empty one flow
identically through every use below. The numeric fields are JS numbers,
modelled as rationals. -/
structure BotMeta where
  lab : String
  botName : String
  ownerEmail : String
  description : String
  baseModel : String
  embedModel : String
  temperature : ℚ
  topP : ℚ
  deriving DecidableEq, Repr

/-- Embeds `validateMeta` (App.tsx lines 74-80). -/
def validateMeta (m : BotMeta) : Bool :=
  decide (0 < (jsTrim m.lab).length) &&
  decide (0 < (jsTrim m.botName).length) &&
  emailTest m.ownerEmail

/-- A working Q&A pair (type `QAPair`, App.tsx lines 19-24); `tags` is
optional in the source type but every construction site supplies an
array, so it is a plain list here. -/
structure QAPair where
  id : String
  q : String
  a : String
  tags : List String
  deriving DecidableEq, Repr

/-- The serialized bot object of `ExportPayload` (App.tsx lines 38-48);
`description` is omitted (undefined) when `none`. -/
structure BotOut where
  name : String
  lab : String
  owner_email : String
  description : Option String
  slug : String
  model : String
  embed_model : String
  temperature : ℚ
  top_p : ℚ
  deriving DecidableEq, Repr

/-- The submission payload (type `ExportPayload`, App.tsx lines 37-52). -/
structure ExportPayload where
  bot : BotOut
  pairs : List OutPair
  created_at : String
  version : String
  deriving DecidableEq, Repr

/-- The derived slug (App.tsx lines 383-387):
`slugify(lab || "lab") + "-" + slugify(botName || "bot")`. -/
def derivedSlug (m : BotMeta) : String :=
  slugify (strOr m.lab "lab") ++ "-" ++ slugify (strOr m.botName "bot")

/-- Embeds the `exportPayload` memo (App.tsx lines 389-412). The
`Array.isArray(pairs)` and `typeof === "number"` guards always hold in
this typed model, and `created_at` (a wall-clock timestamp in the
source) is passed in as `now`. -/
def exportPayload (meta : BotMeta) (pairs : List QAPair) (now : String) : ExportPayload :=
  { bot :=
      { name := strOr (jsTrim meta.botName) "Untitled Bot"
        lab := strOr (jsTrim meta.lab) ""
        owner_email := strOr (jsTrim meta.ownerEmail) ""
        description := (fun d => if d = "" then none else some d) (jsTrim meta.description)
        slug := derivedSlug meta
        model := strOr meta.baseModel "qwen2.5:7b-instruct"
        embed_model := strOr meta.embedModel "nomic-embed-text"
        temperature := meta.temperature
        top_p := meta.topP }
    pairs := pairs.map fun p =>
      { q := jsTrim p.q
        a := jsTrim p.a
        tags := if p.tags = [] then none else some p.tags }
    created_at := now
    version := "2025-09-16" }

/-- Embeds the `isValid` memo (App.tsx lines 414-418): valid metadata
and at least one pair whose trimmed question and answer are non-empty
(`p.q || ""` is the identity on the typed string fields). -/
def isValid (meta : BotMeta) (pairs : List QAPair) : Bool :=
  validateMeta meta &&
  pairs.any (fun p => !(jsTrim p.q = "") && !(jsTrim p.a = ""))

/-- A `Partial<QAPair>` patch as `updatePair` receives it: present
fields overwrite, absent ones keep the old value. -/
structure QAPatch where
  id : Option String
  q : Option String
  a : Option String
  tags : Option (List String)
  deriving DecidableEq, Repr

/-- JS object spread `{ ...p, ...patch }` for a pair and a partial patch. -/
def applyPatch (p : QAPair) (patch : QAPatch) : QAPair :=
  { id := patch.id.getD p.id
    q := patch.q.getD p.q
    a := patch.a.getD p.a
    tags := patch.tags.getD p.tags }

/-- Embeds `updatePair` (App.tsx lines 421-423). -/
def updatePair (i : String) (patch : QAPatch) (prev : List QAPair) : List QAPair :=
  prev.map fun p => if p.id = i then applyPatch p patch else p

/-- Embeds `addPair` (App.tsx lines 424-426); `newId` stands for the
fresh random `uid()`. -/
def addPair (newId : String) (prev : List QAPair) : List QAPair :=
  prev ++ [{ id := newId, q := "", a := "", tags := [] }]

/-- Embeds `removePair` (App.tsx lines 427-429). -/
def removePair (i : String) (prev : List QAPair) : List QAPair :=
  if prev.length ≤ 1 then prev else prev.filter fun p => !(p.id = i)

/-- Embeds `movePair` (App.tsx lines 430-441): find the pair, bail out
on a missing id or an out-of-range target, otherwise splice it out and
back in at the target index. -/
def movePair (i : String) (dir : Int) (prev : List QAPair) : List QAPair :=
  match prev.findIdx? (fun p => p.id = i) with
  | none => prev
  | some idx =>
    let target : Int := (idx : Int) + dir
    if target < 0 ∨ (prev.length : Int) ≤ target then prev
    else
      match prev.get? idx with
      | none => prev
      | some item => (prev.eraseIdx idx).insertIdx target.toNat item

/-- The JSON value `JSON.stringify(exportPayload)` denotes: objects keep
insertion order, undefined fields (`description`, `tags`) are omitted. -/
def encodePayload (p : ExportPayload) : JValue :=
  .obj
    [("bot", .obj
      ([("name", .str p.bot.name), ("lab", .str p.bot.lab),
        ("owner_email", .str p.bot.owner_email)] ++
       (match p.bot.description with
        | some d => [("description", .str d)]
        | none => []) ++
       [("slug", .str p.bot.slug), ("model", .str p.bot.model),
        ("embed_model", .str p.bot.embed_model),
        ("temperature", .num p.bot.temperature),
        ("top_p", .num p.bot.top_p)])),
     ("pairs", .arr (p.pairs.map fun pr =>
       .obj ([("q", .str pr.q), ("a", .str pr.a)] ++
         (match pr.tags with
          | some ts => [("tags", .arr (ts.map .str))]
          | none => [])))),
     ("created_at", .str p.created_at),
     ("version", .str p.version)]

/-- No two adjacent characters of the list both satisfy `p`. -/
def noTwoAdj (p : Char → Bool) : List Char → Bool
  | a :: b :: cs => (!(p a && p b)) && noTwoAdj p (b :: cs)
  | _ => true

/-- The tail of a match of /.+@.+\..+/ after its "@": a non-empty run of
dot-class characters, a literal dot, and a dot-class character, with an
arbitrary remainder. -/
def AfterAt (l : List Char) : Prop :=
  ∃ mid c2 post, l = mid ++ '.' :: c2 :: post ∧ mid ≠ [] ∧
    (∀ c ∈ mid, isRegexDot c = true) ∧ isRegexDot c2 = true

/-- Declarative reading of `/.+@.+\..+/.test`: somewhere in the text, a
dot-class character, an "@", and a matching tail. -/
def RegexEmailMatch (cs : List Char) : Prop :=
  ∃ pre c1 tail, cs = pre ++ c1 :: '@' :: tail ∧ isRegexDot c1 = true ∧ AfterAt tail

/-- The email pattern exactly as claim C3 words it: the string splits as
some non-space text, an "@", non-space text, a ".", and non-space text. -/
def specEmailMatches (s : String) : Bool :=
  let cs := s.data
  let n := cs.length
  (List.range n).any fun i =>
    (List.range n).any fun j =>
      decide (1 ≤ i) && decide (i + 1 < j) && decide (j + 1 < n) &&
      decide (cs.getD i ' ' = '@') && decide (cs.getD j ' ' = '.') &&
      ((cs.take i).all fun c => !(isJsSpace c)) &&
      (((cs.drop (i + 1)).take (j - i - 1)).all fun c => !(isJsSpace c)) &&
      ((cs.drop (j + 1)).all fun c => !(isJsSpace c))

/-- The JSONL strategy exactly as claim C8 words it: split into
non-empty trimmed lines, parse each line independently, extract per
line, drop failures silently, succeed only when more than one line was
present and at least one pair came out. -/
def jsonlSpec (t : String) : Except String ParseResult :=
  let lines := ((splitJsLines t.data).map trimChars).filter (fun l => !(l = []))
  let ps := lines.filterMap fun l => (jsonParseChars l).bind extractAny
  if 1 < lines.length ∧ ps ≠ [] then .ok { metaPatch := none, pairs := ps }
  else .error "Unsupported JSON format: could not find Q/A pairs"

/-- A concrete valid metadata record used by witnesses. -/
def metaC6 : BotMeta :=
  { lab := "IALS", botName := "Bot", ownerEmail := "a@b.c", description := "",
    baseModel := "m", embedModel := "e", temperature := mkRat 2 10, topP := mkRat 95 100 }

/-- A concrete working pair list with one well-formed and one blank pair. -/
def pairsC6 : List QAPair :=
  [{ id := "1", q := " Q ", a := " A ", tags := [] },
   { id := "2", q := " ", a := "", tags := [] }]

/-- A concrete metadata record whose botName is whitespace-only and
whose lab, owner email and description are blank. -/
def metaC10 : BotMeta :=
  { lab := "", botName := "  ", ownerEmail := "", description := "",
    baseModel := "m", embedModel := "e", temperature := mkRat 2 10, topP := mkRat 95 100 }

/-- A concrete fully well-formed pair list (trimmed non-empty tags,
non-blank question and answer) used by the round-trip witness. -/
def pairsC2 : List QAPair :=
  [{ id := "i1", q := " Q1 ", a := " A1 ", tags := ["t"] }]

/-! ### List lemmas for trimming and run collapsing -/

theorem dropWhile_head_not {p : Char → Bool} {l t : List Char} {c : Char}
    (h : l.dropWhile p = c :: t) : p c = false := by
  induction l with
  | nil => simp [List.dropWhile] at h
  | cons a as ih =>
    rw [List.dropWhile_cons] at h
    by_cases hp : p a = true
    · rw [if_pos hp] at h; exact ih h
    · rw [if_neg hp] at h
      cases h
      simp at hp
      exact hp

theorem dropWhile_idem {p : Char → Bool} (l : List Char) :
    (l.dropWhile p).dropWhile p = l.dropWhile p := by
  cases h : l.dropWhile p with
  | nil => simp
  | cons c t => rw [List.dropWhile_cons, dropWhile_head_not h]; simp

theorem trimChars_dropWhile (l : List Char) :
    (trimChars l).dropWhile isJsSpace = trimChars l := by
  have hpfx : trimChars l <+: l.dropWhile isJsSpace := by
    rw [← List.reverse_suffix]
    unfold trimChars
    rw [List.reverse_reverse]
    exact List.dropWhile_suffix _
  cases hm : trimChars l with
  | nil => simp
  | cons c t =>
    obtain ⟨r, hr⟩ := hpfx
    rw [hm, List.cons_append] at hr
    have hc : isJsSpace c = false := dropWhile_head_not hr.symm
    rw [List.dropWhile_cons, hc]
    simp

theorem trimChars_idem (l : List Char) : trimChars (trimChars l) = trimChars l := by
  have hrev : (trimChars l).reverse = ((l.dropWhile isJsSpace).reverse).dropWhile isJsSpace := by
    rw [trimChars, List.reverse_reverse]
  conv_lhs =>
    rw [trimChars, trimChars_dropWhile, hrev, dropWhile_idem, ← hrev, List.reverse_reverse]

theorem jsTrim_idem (s : String) : jsTrim (jsTrim s) = jsTrim s :=
  congrArg String.mk (trimChars_idem s.data)

theorem mem_trimChars {l : List Char} {c : Char} (h : c ∈ trimChars l) : c ∈ l := by
  unfold trimChars at h
  rw [List.mem_reverse] at h
  have h2 := (List.dropWhile_suffix (l := (l.dropWhile isJsSpace).reverse) isJsSpace).subset h
  rw [List.mem_reverse] at h2
  exact (List.dropWhile_suffix isJsSpace).subset h2

theorem mem_collapseRunsAux {p : Char → Bool} {r : Char} :
    ∀ {b : Bool} {l : List Char} {c : Char},
      c ∈ collapseRunsAux p r b l → c = r ∨ (c ∈ l ∧ p c = false) := by
  intro b l
  induction l generalizing b with
  | nil => intro c h; simp [collapseRunsAux] at h
  | cons a as ih =>
    intro c h
    by_cases hp : p a = true
    · have h' : c ∈ (if b then ([] : List Char) else [r]) ++ collapseRunsAux p r true as := by
        simpa [collapseRunsAux, hp] using h
      rw [List.mem_append] at h'
      rcases h' with h' | h'
      · left
        cases b with
        | false => simp at h'; exact h'
        | true => simp at h'
      · rcases ih h' with h'' | ⟨hm, hpc⟩
        · exact .inl h''
        · exact .inr ⟨List.mem_cons_of_mem _ hm, hpc⟩
    · have h' : c = a ∨ c ∈ collapseRunsAux p r false as := by
        simpa [collapseRunsAux, hp] using h
      rcases h' with rfl | h'
      · exact .inr ⟨List.mem_cons_self _ _, by simpa using hp⟩
      · rcases ih h' with h'' | ⟨hm, hpc⟩
        · exact .inl h''
        · exact .inr ⟨List.mem_cons_of_mem _ hm, hpc⟩

theorem collapseRunsAux_true_head {p : Char → Bool} {r : Char} :
    ∀ {l t : List Char} {c : Char},
      collapseRunsAux p r true l = c :: t → p c = false := by
  intro l
  induction l with
  | nil => intro t c h; simp [collapseRunsAux] at h
  | cons a as ih =>
    intro t c h
    by_cases hp : p a = true
    · rw [show collapseRunsAux p r true (a :: as) = collapseRunsAux p r true as by
        simp [collapseRunsAux, hp]] at h
      exact ih h
    · rw [show collapseRunsAux p r true (a :: as) = a :: collapseRunsAux p r false as by
        simp [collapseRunsAux, hp]] at h
      cases h
      simpa using hp

theorem noTwoAdj_cons {p : Char → Bool} {a : Char} {l : List Char}
    (h1 : ∀ c t, l = c :: t → (p a && p c) = false) (h2 : noTwoAdj p l = true) :
    noTwoAdj p (a :: l) = true := by
  cases l with
  | nil => simp [noTwoAdj]
  | cons c t =>
    rw [noTwoAdj, h1 c t rfl]
    simpa using h2

theorem noTwoAdj_collapseRunsAux {p : Char → Bool} {r : Char} :
    ∀ {b : Bool} {l : List Char}, noTwoAdj p (collapseRunsAux p r b l) = true := by
  intro b l
  induction l generalizing b with
  | nil => simp [collapseRunsAux, noTwoAdj]
  | cons a as ih =>
    by_cases hp : p a = true
    · cases b
      · rw [show collapseRunsAux p r false (a :: as) = r :: collapseRunsAux p r true as by
          simp [collapseRunsAux, hp]]
        refine noTwoAdj_cons (fun c t hct => ?_) ih
        rw [collapseRunsAux_true_head hct, Bool.and_false]
      · rw [show collapseRunsAux p r true (a :: as) = collapseRunsAux p r true as by
          simp [collapseRunsAux, hp]]
        exact ih
    · rw [show collapseRunsAux p r b (a :: as) = a :: collapseRunsAux p r false as by
        cases b <;> simp [collapseRunsAux, hp]]
      refine noTwoAdj_cons (fun c t hct => ?_) ih
      rw [show p a = false by simpa using hp, Bool.false_and]

/-- Claim C4 exactly as stated, as a property of one input string:
slugify output uses only [a-z0-9-] and has no leading, no trailing and
no doubled hyphen. -/
def slugC4Property (s : String) : Prop :=
  (∀ c ∈ (slugify s).data, ('a' ≤ c ∧ c ≤ 'z') ∨ ('0' ≤ c ∧ c ≤ '9') ∨ c = '-') ∧
  (slugify s).data.head? ≠ some '-' ∧
  (slugify s).data.getLast? ≠ some '-' ∧
  noTwoAdj (fun c => c = '-') (slugify s).data = true

/-- C4 counterexample: a hyphen carried over from the input survives at
both ends, because `trim` only removes whitespace: slugify "-a" is "-a",
which starts with a hyphen. -/
theorem C4_counterexample : slugify "-a" = "-a" ∧ ¬ slugC4Property "-a" := by
  constructor
  · decide
  · intro h
    exact h.2.1 (by decide)

/-- C4 (amended): for every input string the slugify output contains
only characters in [a-z0-9-] and never two adjacent hyphens, and
slugify "Hello World!" is "hello-world"; hyphens present in the input
may survive at either end, so the no-leading/no-trailing-hyphen part of
the claim is dropped. -/
theorem C4_amended :
    (∀ s : String,
      (∀ c ∈ (slugify s).data, ('a' ≤ c ∧ c ≤ 'z') ∨ ('0' ≤ c ∧ c ≤ '9') ∨ c = '-') ∧
      noTwoAdj (fun c => c = '-') (slugify s).data = true) ∧
    slugify "Hello World!" = "hello-world" := by
  refine ⟨fun s => ⟨fun c hc => ?_, noTwoAdj_collapseRunsAux⟩, by decide⟩
  have hc1 : c ∈ collapseRuns (fun c => c = '-') '-'
      (collapseRuns isJsSpace '-' (trimChars ((s.data.map jsLowerChar).filter isSlugKeep))) := hc
  rcases mem_collapseRunsAux hc1 with h1eq | ⟨h2, _⟩
  · exact .inr (.inr h1eq)
  rcases mem_collapseRunsAux h2 with h2eq | ⟨h3, hns⟩
  · exact .inr (.inr h2eq)
  have h4 := mem_trimChars h3
  rw [List.mem_filter] at h4
  have h5 := h4.2
  unfold isSlugKeep at h5
  rw [hns, Bool.or_false] at h5
  simp only [Bool.or_eq_true, Bool.and_eq_true, decide_eq_true_eq] at h5
  rcases h5 with (h5 | h5) | h5
  · exact .inl h5
  · exact .inr (.inl h5)
  · exact .inr (.inr h5)

/-! ### The email regex: scanner versus declarative match -/

theorem matchDotRun_iff :
    ∀ {l : List Char} {seen : Bool},
      matchDotRun seen l = true ↔
        ∃ mid c2 post, l = mid ++ '.' :: c2 :: post ∧ (seen = true ∨ mid ≠ []) ∧
          (∀ c ∈ mid, isRegexDot c = true) ∧ isRegexDot c2 = true := by
  intro l
  induction l with
  | nil =>
    intro seen
    constructor
    · intro h; simp [matchDotRun] at h
    · rintro ⟨mid, c2, post, h, -, -, -⟩
      exact absurd h (by simp)
  | cons c rest ih =>
    intro seen
    simp only [matchDotRun]
    by_cases h1 : (seen && decide (c = '.') && headDot rest) = true
    · rw [if_pos h1]
      simp only [Bool.and_eq_true, decide_eq_true_eq] at h1
      obtain ⟨⟨hseen, hdot⟩, hhead⟩ := h1
      subst hdot
      constructor
      · intro _
        cases rest with
        | nil => simp [headDot] at hhead
        | cons d post =>
          exact ⟨[], d, post, by simp, .inl hseen, by simp, by simpa [headDot] using hhead⟩
      · intro _; rfl
    · rw [if_neg h1]
      by_cases h2 : isRegexDot c = true
      · rw [if_pos h2, ih]
        constructor
        · rintro ⟨mid, c2, post, hrest, -, hmid, hc2⟩
          refine ⟨c :: mid, c2, post, by rw [hrest]; rfl, .inr (by simp), ?_, hc2⟩
          intro x hx
          rcases List.mem_cons.mp hx with hx | hx
          · rw [hx]; exact h2
          · exact hmid x hx
        · rintro ⟨mid, c2, post, hl, hne, hmid, hc2⟩
          cases mid with
          | nil =>
            rcases hne with hseen | hne'
            · exfalso
              apply h1
              simp only [List.nil_append, List.cons.injEq] at hl
              obtain ⟨hcdot, hrest⟩ := hl
              simp [hseen, hcdot, hrest, headDot, hc2]
            · exact absurd rfl hne'
          | cons m mid' =>
            simp only [List.cons_append, List.cons.injEq] at hl
            obtain ⟨hcm, hrest⟩ := hl
            exact ⟨mid', c2, post, hrest, .inl rfl, fun x hx => hmid x (List.mem_cons_of_mem _ hx), hc2⟩
      · rw [if_neg h2]
        constructor
        · intro h; exact absurd h (by simp)
        · rintro ⟨mid, c2, post, hl, -, hmid, -⟩
          exfalso
          cases mid with
          | nil =>
            simp only [List.nil_append, List.cons.injEq] at hl
            exact h2 (by rw [hl.1]; decide)
          | cons m mid' =>
            simp only [List.cons_append, List.cons.injEq] at hl
            exact h2 (by rw [hl.1]; exact hmid m (List.mem_cons_self _ _))

theorem matchDotRun_false_iff {l : List Char} :
    matchDotRun false l = true ↔ AfterAt l := by
  rw [matchDotRun_iff]
  unfold AfterAt
  constructor
  · rintro ⟨mid, c2, post, hl, hne, hmid, hc2⟩
    rcases hne with h | h
    · exact absurd h (by simp)
    · exact ⟨mid, c2, post, hl, h, hmid, hc2⟩
  · rintro ⟨mid, c2, post, hl, hne, hmid, hc2⟩
    exact ⟨mid, c2, post, hl, .inr hne, hmid, hc2⟩

theorem regexEmailMatch_cons {c : Char} {rest : List Char} :
    RegexEmailMatch (c :: rest) ↔
      ((∃ tail, rest = '@' :: tail ∧ isRegexDot c = true ∧ AfterAt tail) ∨
        RegexEmailMatch rest) := by
  constructor
  · rintro ⟨pre, c1, tail, hl, hc1, hafter⟩
    cases pre with
    | nil =>
      simp only [List.nil_append, List.cons.injEq] at hl
      obtain ⟨hcc1, hrest⟩ := hl
      exact .inl ⟨tail, hrest, by rw [hcc1]; exact hc1, hafter⟩
    | cons p pre' =>
      simp only [List.cons_append, List.cons.injEq] at hl
      exact .inr ⟨pre', c1, tail, hl.2, hc1, hafter⟩
  · rintro (⟨tail, hrest, hc, hafter⟩ | ⟨pre, c1, tail, hl, hc1, hafter⟩)
    · exact ⟨[], c, tail, by rw [hrest]; rfl, hc, hafter⟩
    · exact ⟨c :: pre, c1, tail, by rw [hl]; rfl, hc1, hafter⟩

theorem searchAt_iff :
    ∀ {l : List Char} {prev : Option Char},
      searchAt prev l = true ↔
        ((∃ rest, l = '@' :: rest ∧ prevDot prev = true ∧ AfterAt rest) ∨
          RegexEmailMatch l) := by
  intro l
  induction l with
  | nil =>
    intro prev
    constructor
    · intro h; simp [searchAt] at h
    · rintro (⟨rest, h, -⟩ | ⟨pre, c1, tail, h, -⟩)
      · exact absurd h (by simp)
      · exact absurd h (by simp)
  | cons c rest ih =>
    intro prev
    simp only [searchAt]
    by_cases hc : c = '@'
    · subst hc
      rw [if_pos (by decide)]
      rw [Bool.or_eq_true, Bool.and_eq_true, matchDotRun_false_iff, ih, regexEmailMatch_cons]
      constructor
      · rintro (⟨hprev, hafter⟩ | ⟨r2, hrest, -, hafter⟩ | hre)
        · exact .inl ⟨rest, rfl, hprev, hafter⟩
        · exact .inr (.inl ⟨r2, hrest, by decide, hafter⟩)
        · exact .inr (.inr hre)
      · rintro (⟨rest', hre, hprev, hafter⟩ | ⟨tail, hrest, -, hafter⟩ | hre)
        · simp only [List.cons.injEq] at hre
          rw [← hre.2] at hafter
          exact .inl ⟨hprev, hafter⟩
        · exact .inr (.inl ⟨tail, hrest, by decide, hafter⟩)
        · exact .inr (.inr hre)
    · rw [if_neg (by simpa using hc)]
      rw [ih, regexEmailMatch_cons]
      constructor
      · rintro (⟨r2, hrest, hpd, hafter⟩ | hre)
        · exact .inr (.inl ⟨r2, hrest, by simpa [prevDot] using hpd, hafter⟩)
        · exact .inr (.inr hre)
      · rintro (⟨rest', hre, -⟩ | ⟨tail, hrest, hdotc, hafter⟩ | hre)
        · exact absurd (List.cons.injEq .. ▸ hre) (by
            intro h
            exact hc (List.cons.injEq .. ▸ hre).1)
        · exact .inl ⟨tail, hrest, by simpa [prevDot] using hdotc, hafter⟩
        · exact .inr hre

theorem emailTest_iff {s : String} : emailTest s = true ↔ RegexEmailMatch s.data := by
  unfold emailTest
  rw [searchAt_iff]
  constructor
  · rintro (⟨rest, -, hpd, -⟩ | hre)
    · exact absurd hpd (by simp [prevDot])
    · exact hre
  · intro h; exact .inr h

/-- C3 counterexample: the source regex /.+@.+\..+/ lets the dot match
spaces, so `validateMeta` accepts an owner email made of spaces around
"@" and "."; the claim's non-space pattern rejects that address, so the
stated equivalence fails at this record. -/
theorem C3_counterexample :
    validateMeta { lab := "L", botName := "B", ownerEmail := " @ . ",
                   description := "", baseModel := "m", embedModel := "e",
                   temperature := mkRat 2 10, topP := mkRat 95 100 } = true ∧
    specEmailMatches " @ . " = false := by decide

/-- C3 (amended): validateMeta returns true iff `lab` and `botName` are
non-empty after trimming and `ownerEmail` contains a substring matched
by /.+@.+\..+/, where the dot matches any character except a line
terminator — so spaces are allowed where the claim demanded non-space
text. -/
theorem C3_amended (m : BotMeta) :
    validateMeta m = true ↔
      (jsTrim m.lab ≠ "" ∧ jsTrim m.botName ≠ "" ∧ RegexEmailMatch m.ownerEmail.data) := by
  have hne : ∀ t : String, (decide (0 < t.length) = true) ↔ t ≠ "" := by
    intro t
    rw [decide_eq_true_eq]
    cases t with
    | mk l =>
      constructor
      · intro h he
        have hdata : l = [] := congrArg String.data he
        rw [hdata] at h
        exact absurd h (by simp)
      · intro h
        refine List.length_pos.mpr ?_
        intro he
        exact h (congrArg String.mk he)
  unfold validateMeta
  rw [Bool.and_eq_true, Bool.and_eq_true, hne, hne, emailTest_iff]
  tauto

/-! ### Strategy dispatch lemmas -/

theorem tryFullJson_parsed {t : String} {d : JValue} (hp : jsonParse t = some d) :
    tryFullJson t = tryParsedShapes d := by
  unfold tryFullJson
  rw [hp]

theorem tryFullJson_shape1 {t : String} {fields : List (String × JValue)} {bv : JValue}
    {ps : List JValue}
    (hp : jsonParse t = some (.obj fields))
    (hb : jsLookup "bot" fields = some bv)
    (hps : jsLookup "pairs" fields = some (.arr ps)) :
    tryFullJson t =
      (if extractList ps = [] then .threw "No valid Q/A items found in ExportPayload.pairs"
       else .returned { metaPatch := some (metaPatchOfBot (nullishObj bv)),
                        pairs := extractList ps }) := by
  rw [tryFullJson_parsed hp]
  simp only [tryParsedShapes]
  rw [hb, hps]

theorem parseAnyQAPairs_notReturned {t : String}
    (h : (tryFullJson t).isReturned = false) :
    parseAnyQAPairs t = jsonlPhase t := by
  unfold parseAnyQAPairs
  cases htry : tryFullJson t with
  | returned r => rw [htry] at h; exact absurd h (by simp [TryOutcome.isReturned])
  | threw msg => rfl
  | fellThrough => rfl

theorem jsonlPhase_eq_jsonlSpec (t : String) : jsonlPhase t = jsonlSpec t := by
  have hfun : (fun l => match jsonParseChars l with
      | some v => extractAny v
      | none => none) = fun l : List Char => (jsonParseChars l).bind extractAny := by
    funext l
    cases jsonParseChars l <;> rfl
  simp only [jsonlPhase, jsonlSpec, hfun]
  by_cases h1 : 1 < (((splitJsLines t.data).map trimChars).filter (fun l => !(l = []))).length
  · rw [if_pos h1]
    by_cases h2 : (((splitJsLines t.data).map trimChars).filter (fun l => !(l = []))).filterMap
        (fun l : List Char => (jsonParseChars l).bind extractAny) = []
    · rw [if_pos h2, if_neg (by intro hc; exact hc.2 h2)]
    · rw [if_neg h2, if_pos ⟨h1, h2⟩]
  · rw [if_neg h1, if_neg (by intro hc; exact h1 hc.1)]

/-- C1 counterexample: on a one-line export whose pairs are all
rejected, strategy 1 does throw its "no valid pairs" error, but the
catch swallows it, the JSONL attempt runs and fails, and the error
that the call reports is the generic unsupported-format one — not the
strategy-1 cause the claim promises. -/
theorem C1_counterexample :
    tryFullJson "\x7b\"bot\":0,\"pairs\":[\x7b\x7d]\x7d" =
      .threw "No valid Q/A items found in ExportPayload.pairs" ∧
    parseAnyQAPairs "\x7b\"bot\":0,\"pairs\":[\x7b\x7d]\x7d" =
      .error "Unsupported JSON format: could not find Q/A pairs" := by
  constructor
  · decide
  · decide

/-- C1 (amended): when the input parses as a strategy-1 object and every
element of its pairs array is rejected, the strategy-1 "no valid pairs"
error is thrown inside the try block but caught there, and the call
falls through to the JSONL phase, whose outcome (including the generic
unsupported-format error when it too finds nothing) is what the import
reports. -/
theorem C1_amended {t : String} {fields : List (String × JValue)} {bv : JValue}
    {ps : List JValue}
    (hp : jsonParse t = some (.obj fields))
    (hb : jsLookup "bot" fields = some bv)
    (hps : jsLookup "pairs" fields = some (.arr ps))
    (hempty : extractList ps = []) :
    tryFullJson t = .threw "No valid Q/A items found in ExportPayload.pairs" ∧
    parseAnyQAPairs t = jsonlPhase t := by
  have h1 := tryFullJson_shape1 hp hb hps
  rw [hempty, if_pos rfl] at h1
  exact ⟨h1, parseAnyQAPairs_notReturned (by rw [h1]; rfl)⟩

/-- C1 witness: the amended statement at the concrete one-line input of
the counterexample. -/
theorem C1_amended_witness :
    (jsonParse "\x7b\"bot\":0,\"pairs\":[\x7b\x7d]\x7d" =
        some (.obj [("bot", .num (mkRat 0 1)), ("pairs", .arr [.obj []])]) ∧
      jsLookup "bot" [("bot", JValue.num (mkRat 0 1)), ("pairs", .arr [.obj []])] =
        some (.num (mkRat 0 1)) ∧
      jsLookup "pairs" [("bot", JValue.num (mkRat 0 1)), ("pairs", .arr [.obj []])] =
        some (.arr [.obj []]) ∧
      extractList [JValue.obj []] = []) ∧
    tryFullJson "\x7b\"bot\":0,\"pairs\":[\x7b\x7d]\x7d" =
      .threw "No valid Q/A items found in ExportPayload.pairs" ∧
    parseAnyQAPairs "\x7b\"bot\":0,\"pairs\":[\x7b\x7d]\x7d" = jsonlPhase "\x7b\"bot\":0,\"pairs\":[\x7b\x7d]\x7d" :=
  ⟨⟨by rfl, by rfl, by rfl, by decide⟩,
    C1_amended (by rfl) (by rfl) (by rfl) (by decide)⟩

/-- C8: whenever the try block produced no result — the whole-text parse
failed or no recognized shape returned — the import behaves exactly as
the claim describes the JSONL strategy: non-empty trimmed lines, each
parsed and extracted independently, failures dropped silently, order
kept, success only with more than one line and at least one pair. -/
theorem C8_confirmed {t : String} (h : (tryFullJson t).isReturned = false) :
    parseAnyQAPairs t = jsonlSpec t := by
  rw [parseAnyQAPairs_notReturned h, jsonlPhase_eq_jsonlSpec]

/-- C8 witness: the three-line example of the claim — line 2 is
malformed JSON, lines 1 and 3 are valid single-pair objects — yields
exactly those two pairs in their original order. -/
theorem C8_witness :
    (tryFullJson "\x7b\"q\":\"q1\",\"a\":\"a1\"\x7d\n\x7boops\n\x7b\"q\":\"q3\",\"a\":\"a3\"\x7d").isReturned
        = false ∧
    parseAnyQAPairs "\x7b\"q\":\"q1\",\"a\":\"a1\"\x7d\n\x7boops\n\x7b\"q\":\"q3\",\"a\":\"a3\"\x7d" =
      jsonlSpec "\x7b\"q\":\"q1\",\"a\":\"a1\"\x7d\n\x7boops\n\x7b\"q\":\"q3\",\"a\":\"a3\"\x7d" ∧
    parseAnyQAPairs "\x7b\"q\":\"q1\",\"a\":\"a1\"\x7d\n\x7boops\n\x7b\"q\":\"q3\",\"a\":\"a3\"\x7d" =
      .ok { metaPatch := none,
            pairs := [{ q := "q1", a := "a1", tags := none },
                      { q := "q3", a := "a3", tags := none }] } :=
  ⟨by decide, C8_confirmed (by decide), by decide⟩

/-- C5 counterexample: with bot.model the number 5 (present but not a
string), the recovered baseModel is "5" — the stringified, trimmed
value — and not the default the claim prescribes for non-string models. -/
theorem C5_counterexample :
    parseAnyQAPairs "\x7b\"bot\":\x7b\"model\":5\x7d,\"pairs\":[\x7b\"q\":\"x\",\"a\":\"y\"\x7d]\x7d" =
      .ok { metaPatch := some
              { lab := "", botName := "", ownerEmail := "", description := "",
                baseModel := "5", embedModel := "nomic-embed-text",
                temperature := mkRat 2 10, topP := mkRat 95 100 },
            pairs := [{ q := "x", a := "y", tags := none }] } ∧
    ("5" : String) ≠ "qwen2.5:7b-instruct" := by
  constructor
  · decide
  · decide

/-- C5 (amended): on every strategy-1 input that yields at least one
pair, the metadata patch maps each string field through
`coerceStr(bot.field || fallback)` — so a falsy value (absent, null,
false, 0 or the empty string) selects the fallback ("" for lab, name,
owner_email and description, the model defaults for model fields), and
any other value, string or not, is stringified and trimmed — while
temperature and top_p keep the source number exactly when it is one and
default to 0.2 and 0.95 otherwise. -/
theorem C5_amended {t : String} {fields : List (String × JValue)} {bv : JValue}
    {ps : List JValue}
    (hp : jsonParse t = some (.obj fields))
    (hb : jsLookup "bot" fields = some bv)
    (hps : jsLookup "pairs" fields = some (.arr ps))
    (hne : extractList ps ≠ []) :
    parseAnyQAPairs t = .ok
      { metaPatch := some
          { lab := coerceStr (jsOr ((nullishObj bv).getField "lab") (.str ""))
            botName := coerceStr (jsOr ((nullishObj bv).getField "name") (.str ""))
            ownerEmail := coerceStr (jsOr ((nullishObj bv).getField "owner_email") (.str ""))
            description := coerceStr (jsOr ((nullishObj bv).getField "description") (.str ""))
            baseModel := coerceStr
              (jsOr ((nullishObj bv).getField "model") (.str "qwen2.5:7b-instruct"))
            embedModel := coerceStr
              (jsOr ((nullishObj bv).getField "embed_model") (.str "nomic-embed-text"))
            temperature :=
              match (nullishObj bv).getField "temperature" with
              | some (.num x) => x
              | _ => mkRat 2 10
            topP :=
              match (nullishObj bv).getField "top_p" with
              | some (.num x) => x
              | _ => mkRat 95 100 }
        pairs := extractList ps } := by
  unfold parseAnyQAPairs
  rw [tryFullJson_shape1 hp hb hps, if_neg hne]
  rfl

/-- C5 witness: the amended mapping at the counterexample input, where
bot is an object with a numeric model field. -/
theorem C5_amended_witness :
    (jsonParse "\x7b\"bot\":\x7b\"model\":5\x7d,\"pairs\":[\x7b\"q\":\"x\",\"a\":\"y\"\x7d]\x7d" =
        some (.obj [("bot", .obj [("model", .num (mkRat 5 1))]),
                    ("pairs", .arr [.obj [("q", .str "x"), ("a", .str "y")]])]) ∧
      extractList [JValue.obj [("q", .str "x"), ("a", .str "y")]] ≠ []) ∧
    parseAnyQAPairs "\x7b\"bot\":\x7b\"model\":5\x7d,\"pairs\":[\x7b\"q\":\"x\",\"a\":\"y\"\x7d]\x7d" = .ok
      { metaPatch := some
          { lab := coerceStr (jsOr ((nullishObj (.obj [("model", .num (mkRat 5 1))])).getField "lab") (.str ""))
            botName := coerceStr (jsOr ((nullishObj (.obj [("model", .num (mkRat 5 1))])).getField "name") (.str ""))
            ownerEmail := coerceStr (jsOr ((nullishObj (.obj [("model", .num (mkRat 5 1))])).getField "owner_email") (.str ""))
            description := coerceStr (jsOr ((nullishObj (.obj [("model", .num (mkRat 5 1))])).getField "description") (.str ""))
            baseModel := coerceStr
              (jsOr ((nullishObj (.obj [("model", .num (mkRat 5 1))])).getField "model") (.str "qwen2.5:7b-instruct"))
            embedModel := coerceStr
              (jsOr ((nullishObj (.obj [("model", .num (mkRat 5 1))])).getField "embed_model") (.str "nomic-embed-text"))
            temperature :=
              match (nullishObj (.obj [("model", .num (mkRat 5 1))])).getField "temperature" with
              | some (.num x) => x
              | _ => mkRat 2 10
            topP :=
              match (nullishObj (.obj [("model", .num (mkRat 5 1))])).getField "top_p" with
              | some (.num x) => x
              | _ => mkRat 95 100 }
        pairs := extractList [JValue.obj [("q", .str "x"), ("a", .str "y")]] } :=
  ⟨⟨by rfl, by decide⟩, C5_amended (by rfl) (by rfl) (by rfl) (by decide)⟩

/-- C7: for every object-form candidate, the extractor takes the first
present question key and the first present answer key in the stated
priority orders, rejects when either class is absent or either chosen
value trims to empty, coerces a tags array element-wise with empties
dropped and an empty result treated as absent — and the two concrete
examples of the claim map as stated. -/
theorem C7_confirmed :
    (∀ fields : List (String × JValue),
      ((qKeys.find? (fun k => (jsLookup k fields).isSome) = none ∨
        aKeys.find? (fun k => (jsLookup k fields).isSome) = none) →
          extractQAFromObject (.obj fields) = none) ∧
      (∀ qk ak, qKeys.find? (fun k => (jsLookup k fields).isSome) = some qk →
        aKeys.find? (fun k => (jsLookup k fields).isSome) = some ak →
        extractQAFromObject (.obj fields) =
          (if coerceStr ((jsLookup qk fields).getD .null) = "" ∨
              coerceStr ((jsLookup ak fields).getD .null) = "" then none
           else some
             { q := coerceStr ((jsLookup qk fields).getD .null)
               a := coerceStr ((jsLookup ak fields).getD .null)
               tags :=
                 match jsLookup "tags" fields with
                 | some (.arr ts) =>
                   if (ts.map coerceStr).filter (fun s => !(s = "")) = [] then none
                   else some ((ts.map coerceStr).filter (fun s => !(s = "")))
                 | _ => none }))) ∧
    extractQAFromObject (.obj [("question", .str "Q1"), ("answer", .str "A1"),
        ("tags", .arr [])]) = some { q := "Q1", a := "A1", tags := none } ∧
    extractQAFromObject (.obj [("q", .str " x "), ("a", .str " y ")]) =
      some { q := "x", a := "y", tags := none } := by
  refine ⟨fun fields => ⟨?_, ?_⟩, by decide, by decide⟩
  · intro h
    simp only [extractQAFromObject]
    rcases h with h | h
    · rw [h]
    · rw [h]
      cases qKeys.find? (fun k => (jsLookup k fields).isSome) with
      | none => rfl
      | some qk => rfl
  · intro qk ak hq ha
    simp only [extractQAFromObject]
    rw [hq, ha]

/-- C7 witness: the characterization applied at the first concrete
example, where the chosen keys are "question" and "answer". -/
theorem C7_witness :
    (qKeys.find? (fun k => (jsLookup k [("question", JValue.str "Q1"),
        ("answer", .str "A1"), ("tags", .arr [])]).isSome) = some "question" ∧
      aKeys.find? (fun k => (jsLookup k [("question", JValue.str "Q1"),
        ("answer", .str "A1"), ("tags", .arr [])]).isSome) = some "answer") ∧
    extractQAFromObject (.obj [("question", .str "Q1"), ("answer", .str "A1"),
        ("tags", .arr [])]) =
      (if coerceStr ((jsLookup "question" [("question", JValue.str "Q1"),
            ("answer", .str "A1"), ("tags", .arr [])]).getD .null) = "" ∨
          coerceStr ((jsLookup "answer" [("question", JValue.str "Q1"),
            ("answer", .str "A1"), ("tags", .arr [])]).getD .null) = "" then none
       else some
         { q := coerceStr ((jsLookup "question" [("question", JValue.str "Q1"),
             ("answer", .str "A1"), ("tags", .arr [])]).getD .null)
           a := coerceStr ((jsLookup "answer" [("question", JValue.str "Q1"),
             ("answer", .str "A1"), ("tags", .arr [])]).getD .null)
           tags :=
             match jsLookup "tags" [("question", JValue.str "Q1"),
                 ("answer", .str "A1"), ("tags", .arr [])] with
             | some (.arr ts) =>
               if (ts.map coerceStr).filter (fun s => !(s = "")) = [] then none
               else some ((ts.map coerceStr).filter (fun s => !(s = "")))
             | _ => none }) :=
  ⟨⟨by decide, by decide⟩,
    ((C7_confirmed.1 [("question", .str "Q1"), ("answer", .str "A1"),
        ("tags", .arr [])]).2 "question" "answer" (by decide) (by decide))⟩

/-- C6: the submission gate is true exactly when the metadata validates
and some pair has a non-empty trimmed question and answer; and every
working pair — malformed ones included — appears trimmed, in order, in
the assembled payload: the lengths agree and the k-th payload pair is
the trimmed k-th working pair, with an empty tag list becoming absent. -/
theorem C6_confirmed (meta : BotMeta) (pairs : List QAPair) (now : String) :
    (isValid meta pairs = true ↔
      (validateMeta meta = true ∧ ∃ p ∈ pairs, jsTrim p.q ≠ "" ∧ jsTrim p.a ≠ "")) ∧
    (exportPayload meta pairs now).pairs.length = pairs.length ∧
    (∀ k p, pairs.get? k = some p →
      (exportPayload meta pairs now).pairs.get? k =
        some { q := jsTrim p.q, a := jsTrim p.a,
               tags := if p.tags = [] then none else some p.tags }) := by
  refine ⟨?_, by simp [exportPayload], fun k p hk => ?_⟩
  · unfold isValid
    rw [Bool.and_eq_true, List.any_eq_true]
    constructor
    · rintro ⟨hm, p, hp, hcond⟩
      rw [Bool.and_eq_true] at hcond
      refine ⟨hm, p, hp, ?_, ?_⟩
      · simpa using hcond.1
      · simpa using hcond.2
    · rintro ⟨hm, p, hp, h1, h2⟩
      refine ⟨hm, p, hp, ?_⟩
      rw [Bool.and_eq_true]
      exact ⟨by simpa using h1, by simpa using h2⟩
  · have : (exportPayload meta pairs now).pairs.get? k =
        (pairs.map fun p =>
          ({ q := jsTrim p.q, a := jsTrim p.a,
             tags := if p.tags = [] then none else some p.tags } : OutPair)).get? k := rfl
    rw [this, List.get?_map, hk]
    rfl

/-- C6 witness: the gate and payload mapping at a concrete state with
one well-formed and one blank pair. -/
theorem C6_witness :
    isValid metaC6 pairsC6 = true ∧
    (exportPayload metaC6 pairsC6 "T").pairs.get? 1 =
      some { q := "", a := "", tags := none } := by
  constructor
  · refine (C6_confirmed metaC6 pairsC6 "T").1.mpr ⟨by decide, ?_⟩
    exact ⟨{ id := "1", q := " Q ", a := " A ", tags := [] },
      by simp [pairsC6], by decide, by decide⟩
  · rw [(C6_confirmed metaC6 pairsC6 "T").2.2 1
      { id := "2", q := " ", a := "", tags := [] } (by decide)]
    decide

/-- C10: a blank (empty or whitespace-only) bot name is replaced by the
literal "Untitled Bot" in the payload, while a blank lab or owner email
becomes the empty string and a blank description is omitted. -/
theorem C10_confirmed (meta : BotMeta) (pairs : List QAPair) (now : String)
    (h : jsTrim meta.botName = "") :
    (exportPayload meta pairs now).bot.name = "Untitled Bot" ∧
    (jsTrim meta.lab = "" → (exportPayload meta pairs now).bot.lab = "") ∧
    (jsTrim meta.ownerEmail = "" → (exportPayload meta pairs now).bot.owner_email = "") ∧
    (jsTrim meta.description = "" → (exportPayload meta pairs now).bot.description = none) := by
  refine ⟨?_, fun hl => ?_, fun he => ?_, fun hd => ?_⟩
  · show strOr (jsTrim meta.botName) "Untitled Bot" = "Untitled Bot"
    rw [h, strOr, if_pos rfl]
  · show strOr (jsTrim meta.lab) "" = ""
    rw [hl, strOr, if_pos rfl]
  · show strOr (jsTrim meta.ownerEmail) "" = ""
    rw [he, strOr, if_pos rfl]
  · show (if jsTrim meta.description = "" then none else some (jsTrim meta.description)) = none
    rw [if_pos hd]

/-- C10 witness: the payload of an all-blank metadata record. -/
theorem C10_witness :
    jsTrim metaC10.botName = "" ∧
    (exportPayload metaC10 [] "T").bot.name = "Untitled Bot" ∧
    (exportPayload metaC10 [] "T").bot.lab = "" ∧
    (exportPayload metaC10 [] "T").bot.description = none := by
  have h := C10_confirmed metaC10 [] "T" (by decide)
  exact ⟨by decide, h.1, h.2.1 (by decide), h.2.2.2 (by decide)⟩

/-! ### Pair-editing handlers -/

theorem length_eraseIdx_ge {α : Type} : ∀ (l : List α) (i : Nat),
    l.length - 1 ≤ (l.eraseIdx i).length := by
  intro l
  induction l with
  | nil => intro i; simp
  | cons a as ih =>
    intro i
    cases i with
    | zero => simp [List.eraseIdx]
    | succ j =>
      have := ih j
      simp only [List.eraseIdx, List.length_cons]
      omega

theorem countP_id_le_one {prev : List QAPair} {i : String}
    (hnod : (prev.map QAPair.id).Nodup) :
    prev.countP (fun p => p.id = i) ≤ 1 := by
  have h1 := List.nodup_iff_count_le_one.mp hnod i
  rw [List.count_eq_countP, List.countP_map] at h1
  have hpred : ((fun x => x == i) ∘ QAPair.id) = (fun p : QAPair => decide (p.id = i)) := by
    funext p
    by_cases h : p.id = i <;> simp [h]
  rw [hpred] at h1
  exact h1

theorem removePair_length_ge {prev : List QAPair} {i : String}
    (hnod : (prev.map QAPair.id).Nodup) :
    prev.length - 1 ≤ (removePair i prev).length := by
  unfold removePair
  by_cases hlen : prev.length ≤ 1
  · rw [if_pos hlen]; omega
  · rw [if_neg hlen]
    have hsplit := List.length_eq_countP_add_countP (fun p : QAPair => decide (p.id = i)) prev
    have hfil : (prev.filter fun p => !(p.id = i)).length =
        prev.countP (fun a => decide (¬(decide (a.id = i)) = true)) := by
      rw [← List.countP_eq_length_filter]
      congr 1
      funext p
      by_cases h : p.id = i <;> simp [h]
    rw [hfil]
    have := countP_id_le_one (i := i) hnod
    omega

theorem findIdx?_lt_length {α : Type} {pred : α → Bool} :
    ∀ {l : List α} {i j : Nat}, List.findIdx? pred l i = some j → j < i + l.length := by
  intro l
  induction l with
  | nil =>
    intro i j h
    rw [show (List.findIdx? pred ([] : List α) i) = none from rfl] at h
    cases h
  | cons a as ih =>
    intro i j h
    rw [List.findIdx?_cons] at h
    by_cases hp : pred a = true
    · rw [if_pos hp] at h
      cases h
      simp
    · rw [if_neg hp] at h
      have := ih h
      simp only [List.length_cons]
      omega

/-- C9: on a working set with distinct ids, removing is a no-op when one
pair remains; with more than one pair it keeps exactly the pairs whose
id differs (in order, as a sublist) and drops at most one; and all four
editing handlers preserve non-emptiness. -/
theorem C9_confirmed (prev : List QAPair) (i : String)
    (hnod : (prev.map QAPair.id).Nodup) (hne : prev ≠ []) :
    (prev.length = 1 → removePair i prev = prev) ∧
    (removePair i prev).Sublist prev ∧
    (1 < prev.length → ∀ p ∈ removePair i prev, p.id ≠ i ∧ p ∈ prev) ∧
    (1 < prev.length → ∀ p ∈ prev, p.id ≠ i → p ∈ removePair i prev) ∧
    prev.length - 1 ≤ (removePair i prev).length ∧
    removePair i prev ≠ [] ∧
    (∀ nid, addPair nid prev ≠ []) ∧
    (∀ pid patch, updatePair pid patch prev ≠ []) ∧
    (∀ pid dir, movePair pid dir prev ≠ []) := by
  refine ⟨?_, ?_, ?_, ?_, removePair_length_ge hnod, ?_, ?_, ?_, ?_⟩
  · intro h1
    unfold removePair
    rw [if_pos (by omega)]
  · unfold removePair
    by_cases hlen : prev.length ≤ 1
    · rw [if_pos hlen]
    · rw [if_neg hlen]
      exact List.filter_sublist prev
  · intro hlen p hp
    unfold removePair at hp
    rw [if_neg (by omega)] at hp
    rw [List.mem_filter] at hp
    exact ⟨by simpa using hp.2, hp.1⟩
  · intro hlen p hp hpi
    unfold removePair
    rw [if_neg (by omega)]
    rw [List.mem_filter]
    exact ⟨hp, by simpa using hpi⟩
  · have hlen : 1 ≤ prev.length := by
      cases prev with
      | nil => exact absurd rfl hne
      | cons a as => simp
    have hge := removePair_length_ge (i := i) hnod
    by_cases h1 : prev.length ≤ 1
    · unfold removePair
      rw [if_pos h1]
      exact hne
    · intro hcon
      have : (removePair i prev).length = 0 := by rw [hcon]; rfl
      omega
  · intro nid
    unfold addPair
    simp
  · intro pid patch
    unfold updatePair
    simp only [ne_eq, List.map_eq_nil]
    exact hne
  · intro pid dir
    unfold movePair
    cases hidx : prev.findIdx? (fun p => p.id = pid) with
    | none => exact hne
    | some idx =>
      dsimp only
      by_cases htgt : ((idx : Int) + dir < 0 ∨ (prev.length : Int) ≤ (idx : Int) + dir)
      · rw [if_pos htgt]; exact hne
      · rw [if_neg htgt]
        cases hget : prev.get? idx with
        | none => exact hne
        | some item =>
          dsimp only
          push_neg at htgt
          obtain ⟨h0, hlt⟩ := htgt
          have hidxlt : idx < prev.length := by
            have := findIdx?_lt_length hidx
            omega
          have herase := length_eraseIdx_ge prev idx
          have htn : ((idx : Int) + dir).toNat < prev.length := by omega
          intro hcon
          have hlen0 : ((prev.eraseIdx idx).insertIdx ((idx : Int) + dir).toNat item).length = 0 := by
            rw [hcon]; rfl
          have hle : ((idx : Int) + dir).toNat ≤ (prev.eraseIdx idx).length := by omega
          have := List.length_insertIdx (a := item) ((idx : Int) + dir).toNat (prev.eraseIdx idx) hle
          omega

/-- C9 witness: the handler properties at a concrete two-pair working
set with distinct ids. -/
theorem C9_witness :
    ((pairsC6.map QAPair.id).Nodup ∧ pairsC6 ≠ []) ∧
    (1 < pairsC6.length → ∀ p ∈ removePair "1" pairsC6, p.id ≠ "1" ∧ p ∈ pairsC6) ∧
    removePair "1" pairsC6 ≠ [] ∧
    removePair "1" pairsC6 = [{ id := "2", q := " ", a := "", tags := [] }] := by
  have h := C9_confirmed pairsC6 "1" (by decide) (by decide)
  exact ⟨⟨by decide, by decide⟩, h.2.2.1, h.2.2.2.2.2.1, by decide⟩

/-! ### Round-trip helpers -/

theorem strOr_empty (s : String) : strOr s "" = s := by
  unfold strOr
  by_cases h : s = ""
  · rw [if_pos h, h]
  · rw [if_neg h]

theorem coerceStr_str (s : String) : coerceStr (.str s) = jsTrim s := rfl

theorem jsTruthy_str (s : String) : jsTruthy (.str s) = !(s = "") := rfl

theorem coerce_or_of_ne {x : String} (d : String) (h : x ≠ "") :
    coerceStr (jsOr (some (JValue.str x)) (.str d)) = jsTrim x := by
  show coerceStr (if jsTruthy (.str x) then JValue.str x else .str d) = jsTrim x
  rw [jsTruthy_str, show (!(x = "")) = true by simp [h]]
  rw [if_pos rfl, coerceStr_str]

theorem coerce_or_trim (x : String) :
    coerceStr (jsOr (some (JValue.str (jsTrim x))) (.str "")) = jsTrim x := by
  by_cases h : jsTrim x = ""
  · rw [h]
    decide
  · rw [coerce_or_of_ne "" h, jsTrim_idem]

theorem string_len_pos_iff_ne (t : String) : 0 < t.length ↔ t ≠ "" := by
  cases t with
  | mk l =>
    constructor
    · intro h he
      have hdata : l = [] := congrArg String.data he
      rw [hdata] at h
      exact absurd h (by simp)
    · intro h
      refine List.length_pos.mpr ?_
      intro he
      exact h (congrArg String.mk he)

theorem validateMeta_trims {m : BotMeta} (h : validateMeta m = true) :
    jsTrim m.lab ≠ "" ∧ jsTrim m.botName ≠ "" := by
  unfold validateMeta at h
  rw [Bool.and_eq_true, Bool.and_eq_true] at h
  obtain ⟨⟨h1, h2⟩, -⟩ := h
  rw [decide_eq_true_eq] at h1 h2
  exact ⟨(string_len_pos_iff_ne _).mp h1, (string_len_pos_iff_ne _).mp h2⟩

theorem map_trim_id : ∀ {ts : List String}, (∀ tg ∈ ts, jsTrim tg = tg) →
    ts.map (fun tg => jsTrim tg) = ts := by
  intro ts
  induction ts with
  | nil => intro _; rfl
  | cons a as ih =>
    intro h
    rw [List.map_cons, h a (List.mem_cons_self _ _), ih fun tg htg => h tg (List.mem_cons_of_mem _ htg)]

theorem filter_ne_empty_id {ts : List String} (h : ∀ tg ∈ ts, tg ≠ "") :
    ts.filter (fun s => !(s = "")) = ts := by
  refine List.filter_eq_self.mpr ?_
  intro a ha
  simpa using h a ha

theorem extract_encoded_pair {p : QAPair}
    (hq : jsTrim p.q ≠ "") (ha : jsTrim p.a ≠ "")
    (htags : ∀ tg ∈ p.tags, jsTrim tg = tg ∧ tg ≠ "") :
    extractAny (.obj ([("q", .str (jsTrim p.q)), ("a", .str (jsTrim p.a))] ++
      (match (if p.tags = [] then none else some p.tags : Option (List String)) with
       | some ts => [("tags", JValue.arr (ts.map JValue.str))]
       | none => []))) =
    some { q := jsTrim p.q, a := jsTrim p.a,
           tags := if p.tags = [] then none else some p.tags } := by
  by_cases htl : p.tags = []
  · rw [htl]
    simp [extractAny, extractQAFromObject, qKeys, aKeys, jsLookup, List.find?,
      coerceStr_str, jsTrim_idem, hq, ha]
  · rw [if_neg htl]
    simp [extractAny, extractQAFromObject, qKeys, aKeys, jsLookup, List.find?,
      coerceStr_str, jsTrim_idem, hq, ha, List.map_map]
    constructor
    · obtain ⟨x, hx⟩ := List.exists_mem_of_ne_nil _ htl
      exact ⟨x, hx, by rw [(htags x hx).1]; exact (htags x hx).2⟩
    · have hcomp : (coerceStr ∘ JValue.str) = (fun tg => jsTrim tg) := rfl
      rw [hcomp, map_trim_id (fun tg htg => (htags tg htg).1)]
      exact filter_ne_empty_id (fun tg htg => (htags tg htg).2)

theorem extractList_encoded : ∀ (ps : List QAPair),
    (∀ p ∈ ps, jsTrim p.q ≠ "" ∧ jsTrim p.a ≠ "" ∧ ∀ tg ∈ p.tags, jsTrim tg = tg ∧ tg ≠ "") →
    extractList (ps.map fun p => JValue.obj
      ([("q", .str (jsTrim p.q)), ("a", .str (jsTrim p.a))] ++
        (match (if p.tags = [] then none else some p.tags : Option (List String)) with
         | some ts => [("tags", JValue.arr (ts.map JValue.str))]
         | none => []))) =
    ps.map fun p => { q := jsTrim p.q, a := jsTrim p.a,
                      tags := if p.tags = [] then none else some p.tags } := by
  intro ps
  induction ps with
  | nil => intro _; rfl
  | cons a as ih =>
    intro h
    obtain ⟨hq, ha, ht⟩ := h a (List.mem_cons_self _ _)
    rw [List.map_cons, List.map_cons]
    unfold extractList
    rw [List.filterMap_cons, extract_encoded_pair hq ha ht]
    have ihh := ih fun p hp => h p (List.mem_cons_of_mem _ hp)
    unfold extractList at ihh
    rw [ihh]

theorem metaPatch_encoded (m : BotMeta) (h1 : validateMeta m = true)
    (h2 : m.baseModel ≠ "") (h3 : m.embedModel ≠ "") :
    metaPatchOfBot (nullishObj (.obj
      ([("name", JValue.str (strOr (jsTrim m.botName) "Untitled Bot")),
        ("lab", .str (strOr (jsTrim m.lab) "")),
        ("owner_email", .str (strOr (jsTrim m.ownerEmail) ""))] ++
       (match (if jsTrim m.description = "" then none
               else some (jsTrim m.description) : Option String) with
        | some d => [("description", JValue.str d)]
        | none => []) ++
       [("slug", .str (derivedSlug m)),
        ("model", .str (strOr m.baseModel "qwen2.5:7b-instruct")),
        ("embed_model", .str (strOr m.embedModel "nomic-embed-text")),
        ("temperature", .num m.temperature), ("top_p", .num m.topP)]))) =
    { lab := jsTrim m.lab, botName := jsTrim m.botName, ownerEmail := jsTrim m.ownerEmail,
      description := jsTrim m.description, baseModel := jsTrim m.baseModel,
      embedModel := jsTrim m.embedModel, temperature := m.temperature, topP := m.topP } := by
  obtain ⟨hlab, hbn⟩ := validateMeta_trims h1
  have hsname : strOr (jsTrim m.botName) "Untitled Bot" = jsTrim m.botName := by
    unfold strOr
    rw [if_neg hbn]
  have hbm := coerce_or_of_ne (x := m.baseModel) "qwen2.5:7b-instruct" h2
  have hem := coerce_or_of_ne (x := m.embedModel) "nomic-embed-text" h3
  have hmod : strOr m.baseModel "qwen2.5:7b-instruct" = m.baseModel := by
    unfold strOr
    rw [if_neg h2]
  have hemb : strOr m.embedModel "nomic-embed-text" = m.embedModel := by
    unfold strOr
    rw [if_neg h3]
  have hnone : coerceStr (jsOr none (.str "")) = "" := rfl
  rw [hsname, strOr_empty, strOr_empty, hmod, hemb]
  by_cases hd : jsTrim m.description = ""
  · rw [if_pos hd]
    simp [metaPatchOfBot, nullishObj, JValue.getField, jsLookup, coerce_or_trim, hbm, hem, hd,
      hnone]
  · rw [if_neg hd]
    simp [metaPatchOfBot, nullishObj, JValue.getField, jsLookup, coerce_or_trim, hbm, hem]

/-- C2 (amended): serializing a metadata record that passes validateMeta
and has non-empty model identifiers, together with a non-empty pair list
whose pairs all have non-empty trimmed question and answer and whose
tags are trimmed and non-empty, and running the import normalizer on
that serialization succeeds via strategy 1, recovering the trimmed
metadata and, in order, the pairs with question and answer trimmed and
empty tag lists turned absent; ill-formed pairs would be dropped and ids
are regenerated, which is why the hypotheses exclude them. -/
theorem C2_amended (m : BotMeta) (pairs : List QAPair) (now : String)
    (h1 : validateMeta m = true) (h2 : m.baseModel ≠ "") (h3 : m.embedModel ≠ "")
    (h4 : ∀ p ∈ pairs, jsTrim p.q ≠ "" ∧ jsTrim p.a ≠ "" ∧
      ∀ tg ∈ p.tags, jsTrim tg = tg ∧ tg ≠ "")
    (h5 : pairs ≠ []) :
    ∀ t, jsonParse t = some (encodePayload (exportPayload m pairs now)) →
      parseAnyQAPairs t = .ok
        { metaPatch := some
            { lab := jsTrim m.lab, botName := jsTrim m.botName,
              ownerEmail := jsTrim m.ownerEmail, description := jsTrim m.description,
              baseModel := jsTrim m.baseModel, embedModel := jsTrim m.embedModel,
              temperature := m.temperature, topP := m.topP }
          pairs := pairs.map fun p =>
            { q := jsTrim p.q, a := jsTrim p.a,
              tags := if p.tags = [] then none else some p.tags } } := by
  intro t ht
  have hparse : jsonParse t = some (.obj
      [("bot", JValue.obj
         ([("name", JValue.str (strOr (jsTrim m.botName) "Untitled Bot")),
           ("lab", .str (strOr (jsTrim m.lab) "")),
           ("owner_email", .str (strOr (jsTrim m.ownerEmail) ""))] ++
          (match (if jsTrim m.description = "" then none
                  else some (jsTrim m.description) : Option String) with
           | some d => [("description", JValue.str d)]
           | none => []) ++
          [("slug", .str (derivedSlug m)),
           ("model", .str (strOr m.baseModel "qwen2.5:7b-instruct")),
           ("embed_model", .str (strOr m.embedModel "nomic-embed-text")),
           ("temperature", .num m.temperature), ("top_p", .num m.topP)])),
       ("pairs", .arr ((pairs.map (fun p => ({ q := jsTrim p.q, a := jsTrim p.a, tags := if p.tags = [] then none else some p.tags } : OutPair))).map
          (fun pr => JValue.obj ([("q", .str pr.q), ("a", .str pr.a)] ++
            (match pr.tags with
             | some ts => [("tags", JValue.arr (ts.map JValue.str))]
             | none => []))))),
       ("created_at", .str now), ("version", .str "2025-09-16")]) := ht
  have HL : extractList ((pairs.map (fun p => ({ q := jsTrim p.q, a := jsTrim p.a, tags := if p.tags = [] then none else some p.tags } : OutPair))).map
        (fun pr => JValue.obj ([("q", .str pr.q), ("a", .str pr.a)] ++
          (match pr.tags with
           | some ts => [("tags", JValue.arr (ts.map JValue.str))]
           | none => [])))) =
      pairs.map fun p => ({ q := jsTrim p.q, a := jsTrim p.a, tags := if p.tags = [] then none else some p.tags } : OutPair) := by
    rw [List.map_map]
    exact extractList_encoded pairs h4
  have hne : extractList ((pairs.map (fun p => ({ q := jsTrim p.q, a := jsTrim p.a, tags := if p.tags = [] then none else some p.tags } : OutPair))).map
        (fun pr => JValue.obj ([("q", .str pr.q), ("a", .str pr.a)] ++
          (match pr.tags with
           | some ts => [("tags", JValue.arr (ts.map JValue.str))]
           | none => [])))) ≠ [] := by
    rw [HL]
    intro hcon
    rw [List.map_eq_nil_iff] at hcon
    exact h5 hcon
  unfold parseAnyQAPairs
  rw [tryFullJson_shape1 hparse rfl rfl, if_neg hne]
  refine congrArg Except.ok ?_
  rw [ParseResult.mk.injEq]
  exact ⟨congrArg some (metaPatch_encoded m h1 h2 h3), HL⟩

set_option maxRecDepth 16000 in
/-- C2 counterexample: a state that passes the submission gate can hold
a blank pair alongside a good one; the serialization round-trip then
drops the blank pair, so the recovered list has one pair where the
working set had two — not equal up to ids and tag normalization. -/
theorem C2_counterexample :
    isValid metaC6 pairsC6 = true ∧
    jsonParse "\x7b\"bot\":\x7b\"name\":\"Bot\",\"lab\":\"IALS\",\"owner_email\":\"a@b.c\",\"slug\":\"ials-bot\",\"model\":\"m\",\"embed_model\":\"e\",\"temperature\":0.2,\"top_p\":0.95\x7d,\"pairs\":[\x7b\"q\":\"Q\",\"a\":\"A\"\x7d,\x7b\"q\":\"\",\"a\":\"\"\x7d],\"created_at\":\"T\",\"version\":\"2025-09-16\"\x7d" =
      some (encodePayload (exportPayload metaC6 pairsC6 "T")) ∧
    parseAnyQAPairs "\x7b\"bot\":\x7b\"name\":\"Bot\",\"lab\":\"IALS\",\"owner_email\":\"a@b.c\",\"slug\":\"ials-bot\",\"model\":\"m\",\"embed_model\":\"e\",\"temperature\":0.2,\"top_p\":0.95\x7d,\"pairs\":[\x7b\"q\":\"Q\",\"a\":\"A\"\x7d,\x7b\"q\":\"\",\"a\":\"\"\x7d],\"created_at\":\"T\",\"version\":\"2025-09-16\"\x7d" =
      .ok { metaPatch := some
              { lab := "IALS", botName := "Bot", ownerEmail := "a@b.c",
                description := "", baseModel := "m", embedModel := "e",
                temperature := mkRat 2 10, topP := mkRat 95 100 },
            pairs := [{ q := "Q", a := "A", tags := none }] } ∧
    ([{ q := "Q", a := "A", tags := none }] : List OutPair).length ≠ pairsC6.length := by
  refine ⟨by decide, by rfl, by decide, by decide⟩

set_option maxRecDepth 16000 in
/-- C2 witness: the amended round-trip at a concrete valid state whose
single pair is fully well-formed. -/
theorem C2_amended_witness :
    (validateMeta metaC6 = true ∧ metaC6.baseModel ≠ "" ∧ metaC6.embedModel ≠ "" ∧
      pairsC2 ≠ [] ∧
      jsonParse "\x7b\"bot\":\x7b\"name\":\"Bot\",\"lab\":\"IALS\",\"owner_email\":\"a@b.c\",\"slug\":\"ials-bot\",\"model\":\"m\",\"embed_model\":\"e\",\"temperature\":0.2,\"top_p\":0.95\x7d,\"pairs\":[\x7b\"q\":\"Q1\",\"a\":\"A1\",\"tags\":[\"t\"]\x7d],\"created_at\":\"T\",\"version\":\"2025-09-16\"\x7d" =
        some (encodePayload (exportPayload metaC6 pairsC2 "T"))) ∧
    parseAnyQAPairs "\x7b\"bot\":\x7b\"name\":\"Bot\",\"lab\":\"IALS\",\"owner_email\":\"a@b.c\",\"slug\":\"ials-bot\",\"model\":\"m\",\"embed_model\":\"e\",\"temperature\":0.2,\"top_p\":0.95\x7d,\"pairs\":[\x7b\"q\":\"Q1\",\"a\":\"A1\",\"tags\":[\"t\"]\x7d],\"created_at\":\"T\",\"version\":\"2025-09-16\"\x7d" =
      .ok { metaPatch := some
              { lab := "IALS", botName := "Bot", ownerEmail := "a@b.c",
                description := "", baseModel := "m", embedModel := "e",
                temperature := mkRat 2 10, topP := mkRat 95 100 },
            pairs := [{ q := "Q1", a := "A1", tags := some ["t"] }] } := by
  refine ⟨⟨by decide, by decide, by decide, by decide, by rfl⟩, ?_⟩
  have h := C2_amended metaC6 pairsC2 "T" (by decide) (by decide) (by decide)
    (by decide) (by decide)
    "\x7b\"bot\":\x7b\"name\":\"Bot\",\"lab\":\"IALS\",\"owner_email\":\"a@b.c\",\"slug\":\"ials-bot\",\"model\":\"m\",\"embed_model\":\"e\",\"temperature\":0.2,\"top_p\":0.95\x7d,\"pairs\":[\x7b\"q\":\"Q1\",\"a\":\"A1\",\"tags\":[\"t\"]\x7d],\"created_at\":\"T\",\"version\":\"2025-09-16\"\x7d"
    (by rfl)
  exact h.trans (by decide)
